import Mathlib

/-!
Verification of the syntax classifier of `src/lib/syntax.ts`
(codemirror6-emmet).

The module under `src/` is pure classification logic over a resolved
editor context.  Its helpers live in sibling modules that are not part
of the source snapshot (`lib/context.ts`, `lib/utils.ts`, `lib/types.ts`,
`lib/config.ts`) or in external packages (`@codemirror/*`,
`@emmetio/html-matcher`, `@lezer/common`); those are modelled from the
specification and kept abstract where the spec keeps them abstract.

Strings model the JavaScript string type; `Option String` models a
`string | undefined` parameter, and JavaScript truthiness of a string
(`syntax ? ... : false`) is `s ≠ ""` on the `some` branch.
-/

/-- Modelled from the spec: `TokenType` of `lib/types.ts` — classifies the
CSS construct that directly encloses or abuts the cursor.  In the source it
is a const enum of the strings selector / propertyName / propertyValue /
blockEnd; only equality on it is ever used. -/
inductive TokenType where
  | Selector
  | PropertyName
  | PropertyValue
  | BlockEnd
deriving DecidableEq, Repr

/-- Modelled from the spec: one enclosing tag or selector
`{ name, range: [start, end] }` of `lib/types.ts`. -/
structure AncestorNode where
  name : String
  range : Nat × Nat
deriving DecidableEq, Repr

/-- Modelled from the spec: the `current` token of a CSS context,
`{ type: TokenType, range }`. -/
structure CSSTokenInfo where
  type : TokenType
  range : Nat × Nat
deriving DecidableEq, Repr

/-- Modelled from the spec: `CSSContext` of `lib/types.ts`.  `inline` and
`current` are optional fields; `inline = some true` is the only truthy
value of the `ctx.inline` check. -/
structure CSSContext where
  ancestors : List AncestorNode
  inline : Option Bool
  current : Option CSSTokenInfo
deriving DecidableEq, Repr

/-- Modelled from the spec: `HTMLContext` of `lib/types.ts`; the optional
`css` field is present only when the cursor is at an inline-style position
nested in the HTML tree. -/
structure HTMLContext where
  ancestors : List AncestorNode
  css : Option CSSContext
deriving DecidableEq, Repr

/-- The tagged union of the two context shapes; the source discriminates on
the `type` field (the strings html / css), which here is the constructor. -/
inductive Context where
  | html (ctx : HTMLContext)
  | css (ctx : CSSContext)
deriving DecidableEq, Repr

/-- Modelled from the spec: a syntax-tree node of the external tree
provider, with `.name`, attribute data and `.parent` navigation. -/
inductive TreeNode where
  | mk (name : String) (attrs : List (String × String)) (parent : Option TreeNode)

def TreeNode.name : TreeNode → String
  | .mk n _ _ => n

def TreeNode.attrs : TreeNode → List (String × String)
  | .mk _ a _ => a

def TreeNode.parent : TreeNode → Option TreeNode
  | .mk _ _ p => p

/-- Modelled from the spec: the document's top-level declared language —
the result of comparing `state.facet(language)` with `cssLanguage` and
`htmlLanguage`. -/
inductive TopLanguage where
  | cssLang
  | htmlLang
  | otherLang
deriving DecidableEq, Repr

/-- Modelled from the spec: the slice of the editor state this module
reads — the top-level language facet, the tree resolver
`syntaxTree(state).resolve(pos, 1)` (which always yields a node, possibly
the tree root), and the external Context Resolver `getContext(state, pos)`
of `lib/context.ts`. -/
structure EditorState where
  topLang : TopLanguage
  resolveAt : Nat → TreeNode
  getContext : Nat → Option Context

/-- JavaScript truthiness of an optional boolean: only `some true` is
truthy. -/
def truthyOpt : Option Bool → Bool
  | some b => b
  | none => false

/-- Modelled from the spec: `last` of `lib/utils.ts` — the last element of
an array, or nothing when it is empty; the last ancestor is the immediate
parent. -/
def last (xs : List α) : Option α := xs.getLast?

/-- The abbreviation type: the source uses the strings markup /
stylesheet (type `SyntaxType` from emmet). -/
inductive SyntaxType where
  | markup
  | stylesheet
deriving DecidableEq, Repr

/-- The string value of a `SyntaxType`, as it appears in candidate tags of
`enabledForSyntax`. -/
def SyntaxType.str : SyntaxType → String
  | .markup => "markup"
  | .stylesheet => "stylesheet"

def xmlSyntaxes : List String := ["xml", "xsl", "jsx"]

def htmlSyntaxes : List String := ["html", "htmlmixed", "vue"]

def cssSyntaxes : List String := ["css", "scss", "less"]

def jsxSyntaxes : List String := ["jsx", "tsx"]

def markupSyntaxes : List String :=
  ["haml", "jade", "pug", "slim"] ++ htmlSyntaxes ++ xmlSyntaxes ++ jsxSyntaxes

def stylesheetSyntaxes : List String :=
  ["sass", "sss", "stylus", "postcss"] ++ cssSyntaxes

/-- `SyntaxInfo` of `syntax.ts`.  The `syntax` field (here `syntaxName`,
since that word is a Lean keyword) is declared optional in the interface
but is always assigned by `syntaxInfo` and asserted non-null
(`info.syntax!`) by `enabledForSyntax`, so it is embedded as a plain
string. -/
structure SyntaxInfo where
  type : SyntaxType
  syntaxName : String
  inline : Option Bool
  context : Option Context
deriving DecidableEq, Repr

/-- `docSyntax`: the main editor syntax — css or html when the top
language facet is the corresponding language, otherwise the empty
string. -/
def docSyntax (state : EditorState) : String :=
  match state.topLang with
  | .cssLang => "css"
  | .htmlLang => "html"
  | .otherLang => ""

/-- `getSyntaxType`: membership test against `stylesheetSyntaxes`
(`syntax && stylesheetSyntaxes.includes(syntax)`); everything else is
markup. -/
def getSyntaxType : Option String → SyntaxType
  | some s => if s ≠ "" ∧ s ∈ stylesheetSyntaxes then .stylesheet else .markup
  | none => .markup

/-- `isXML`: `syntax ? xmlSyntaxes.includes(syntax) : false`. -/
def isXML : Option String → Bool
  | some s => if s = "" then false else decide (s ∈ xmlSyntaxes)
  | none => false

/-- `isHTML`: `syntax ? htmlSyntaxes.includes(syntax) || isXML(syntax) :
false`. -/
def isHTML : Option String → Bool
  | some s => if s = "" then false else (decide (s ∈ htmlSyntaxes) || isXML (some s))
  | none => false

/-- `isSupported`: membership in `markupSyntaxes` or
`stylesheetSyntaxes`, behind the same truthiness guard. -/
def isSupported : Option String → Bool
  | some s =>
    if s = "" then false
    else (decide (s ∈ markupSyntaxes) || decide (s ∈ stylesheetSyntaxes))
  | none => false

/-- `isCSS`: `syntax ? cssSyntaxes.includes(syntax) : false`. -/
def isCSS : Option String → Bool
  | some s => if s = "" then false else decide (s ∈ cssSyntaxes)
  | none => false

/-- `isJSX`: `syntax ? jsxSyntaxes.includes(syntax) : false`. -/
def isJSX : Option String → Bool
  | some s => if s = "" then false else decide (s ∈ jsxSyntaxes)
  | none => false

/-- Modelled from the spec: `EnableForSyntax` of `lib/config.ts` — a
per-feature option that is either a boolean or an array of syntax/type
tags. -/
inductive EnableForSyntax where
  | bool (b : Bool)
  | list (tags : List String)
deriving DecidableEq, Repr

/-- `enabledForSyntax`: `true` is always enabled; for an array, the
candidate tags are the abbreviation type, the syntax name, and — when
`info.inline` is truthy — the same two suffixed with `-inline`; the result
is whether any candidate is in the array.  Every other option shape
returns false. -/
def enabledForSyntax (opt : EnableForSyntax) (info : SyntaxInfo) : Bool :=
  match opt with
  | .bool true => true
  | .list tags =>
    let candidates : List String :=
      [info.type.str, info.syntaxName] ++
        (if truthyOpt info.inline then
          [info.type.str ++ "-inline", info.syntaxName ++ "-inline"]
        else [])
    candidates.any fun c => decide (c ∈ tags)
  | .bool false => false

/-- The context resolution step of `syntaxInfo`: a numeric argument is
resolved through `getContext`, a context argument is used as given, an
absent argument yields no context. -/
def resolvedContext (state : EditorState) (ctx : Option (Nat ⊕ Context)) : Option Context :=
  match ctx with
  | some (Sum.inl pos) => state.getContext pos
  | some (Sum.inr c) => some c
  | none => none

/-- `syntaxInfo`: starts from ` docSyntax`; an HTML context carrying a
`css` sub-context forces inline css and replaces the context with the
nested CSS context; a plain CSS context forces css; the abbreviation type
is `getSyntaxType` of the resulting syntax. -/
def syntaxInfo (state : EditorState) (ctx : Option (Nat ⊕ Context)) : SyntaxInfo :=
  let syn := docSyntax state
  match resolvedContext state ctx with
  | some (Context.html h) =>
    match h.css with
    | some c =>
      { type := getSyntaxType (some "css"), syntaxName := "css",
        inline := some true, context := some (Context.css c) }
    | none =>
      { type := getSyntaxType (some syn), syntaxName := syn,
        inline := none, context := some (Context.html h) }
  | some (Context.css c) =>
    { type := getSyntaxType (some "css"), syntaxName := "css",
      inline := none, context := some (Context.css c) }
  | none =>
    { type := getSyntaxType (some syn), syntaxName := syn,
      inline := none, context := none }

/-- The `AbbreviationContext` handed to the expansion engine: a name plus,
for markup contexts only, a name-to-value attribute mapping. -/
structure AbbreviationContext where
  name : String
  attributes : Option (List (String × String))
deriving DecidableEq, Repr

def CSSAbbreviationScope.Global : String := "@@global"

def CSSAbbreviationScope.Section : String := "@@section"

def CSSAbbreviationScope.Property : String := "@@property"

def CSSAbbreviationScope.Value : String := "@@value"

/-- `getStylesheetAbbreviationContext`: inline contexts are always
property scope; otherwise the scope defaults to global, refined to the
innermost ancestor's name at a property value with a parent, or to section
at a top-level selector or property name with no parent. -/
def getStylesheetAbbreviationContext (ctx : CSSContext) : AbbreviationContext :=
  if truthyOpt ctx.inline then
    { name := CSSAbbreviationScope.Property, attributes := none }
  else
    let parent := last ctx.ancestors
    let scope : String :=
      match ctx.current, parent with
      | some cur, some p =>
        if cur.type = TokenType.PropertyValue then p.name
        else CSSAbbreviationScope.Global
      | some cur, none =>
        if cur.type = TokenType.Selector ∨ cur.type = TokenType.PropertyName then
          CSSAbbreviationScope.Section
        else CSSAbbreviationScope.Global
      | none, _ => CSSAbbreviationScope.Global
    { name := scope, attributes := none }

/-- Modelled from the spec: an attribute token of the external raw-text
attribute scanner (`attributes` of `@emmetio/html-matcher`): a name and an
optional value. -/
structure AttributeToken where
  name : String
  value : Option String
deriving DecidableEq, Repr

/-- Modelled from the spec: `attributeValue` of `lib/utils.ts` — the value
carried by an attribute token. -/
def attributeValue (attr : AttributeToken) : Option String := attr.value

/-- JavaScript `code.slice(a, b)` on Nat bounds: the characters from `a`
(inclusive) to `b` (exclusive), clamped to the string. -/
def strSlice (code : String) (a b : Nat) : String :=
  ((code.data.drop a).take (b - a)).asString

/-- The attribute loop of ` getEmbeddedStyleSyntax`: the value of the
first attribute named type, if any. -/
def findTypeAttrValue : List AttributeToken → Option String
  | [] => none
  | attr :: rest =>
    if attr.name = "type" then attributeValue attr else findTypeAttrValue rest

/-- `getEmbeddedStyleSyntax`: when the innermost ancestor is a style tag,
scan the attributes of its raw slice and return the value of a type
attribute; otherwise nothing.  The external scanner is a parameter, as the
spec treats attribute parsing as an external collaborator. -/
def getEmbeddedStyleSyntax (attributes : String → String → List AttributeToken)
    (code : String) (ctx : HTMLContext) : Option String :=
  match last ctx.ancestors with
  | some parent =>
    if parent.name = "style" then
      findTypeAttrValue (attributes ( strSlice code parent.range.1 parent.range.2) parent.name)
    else none
  | none => none

/-- Modelled from the spec: `getTagAttributes` of `lib/utils.ts` —
extracts an open-tag node's attributes as a name-to-value mapping. -/
def getTagAttributes (_state : EditorState) (node : TreeNode) : List (String × String) :=
  node.attrs

/-- The ascent loop of `getMarkupAbbreviationContext`: walk parent links
upward from a node until an OpenTag node or the tree root. -/
def findOpenTagNode : TreeNode → Option TreeNode
  | .mk n a p =>
    if n = "OpenTag" then some (.mk n a p)
    else
      match p with
      | none => none
      | some q => findOpenTagNode q

/-- `getMarkupAbbreviationContext`: nothing when the HTML context has no
ancestors; otherwise the innermost ancestor's name together with the
attributes of the nearest enclosing OpenTag node above the ancestor's
start position, or an empty mapping when none exists. -/
def getMarkupAbbreviationContext (state : EditorState) (ctx : HTMLContext) :
    Option AbbreviationContext :=
  match last ctx.ancestors with
  | some parent =>
    some
      { name := parent.name,
        attributes := some
          (match findOpenTagNode (state.resolveAt parent.range.1) with
           | some node => getTagAttributes state node
           | none => []) }
  | none => none

/-! ### Sample data shared by concrete witnesses -/

def sampleOpenTag : TreeNode := TreeNode.mk "OpenTag" [("id", "page")] none

def sampleResolvedNode : TreeNode := TreeNode.mk "Text" [] (some sampleOpenTag)

def sampleState : EditorState :=
  { topLang := TopLanguage.htmlLang,
    resolveAt := fun _ => sampleResolvedNode,
    getContext := fun _ => none }

def sampleCSSContext : CSSContext :=
  { ancestors := [], inline := none, current := none }

/-! ### Helper lemmas -/

theorem getSyntaxType_css : getSyntaxType (some "css") = SyntaxType.stylesheet := by
  decide

theorem findTypeAttrValue_eq_none (l : List AttributeToken)
    (h : ∀ attr ∈ l, attr.name ≠ "type") : findTypeAttrValue l = none := by
  induction l with
  | nil => rfl
  | cons a rest ih =>
    have ha : a.name ≠ "type" := h a (List.mem_cons_self a rest)
    simp only [findTypeAttrValue]
    rw [if_neg ha]
    exact ih fun attr hm => h attr (List.mem_cons_of_mem a hm)

/-! ### Claim theorems -/

/-- C3: every member of `stylesheetSyntaxes` (sass, sss, stylus, postcss,
css, scss, less) classifies as stylesheet under `getSyntaxType`; every
other string, the empty string and an absent argument classify as
markup. -/
theorem getSyntaxType_classification :
    (∀ s, s ∈ stylesheetSyntaxes → getSyntaxType (some s) = SyntaxType.stylesheet) ∧
    (∀ s, s ∉ stylesheetSyntaxes → getSyntaxType (some s) = SyntaxType.markup) ∧
    getSyntaxType (some "") = SyntaxType.markup ∧
    getSyntaxType none = SyntaxType.markup := by
  refine ⟨?_, ?_, by decide, rfl⟩
  · intro s hs
    have hne : s ≠ "" := by
      rintro rfl
      revert hs
      decide
    simp [getSyntaxType, hne, hs]
  · intro s hs
    simp [getSyntaxType, hs]

/-- C3 witness: concrete members and non-members. -/
theorem getSyntaxType_classification_witness :
    "scss" ∈ stylesheetSyntaxes ∧ getSyntaxType (some "scss") = SyntaxType.stylesheet ∧
    "html" ∉ stylesheetSyntaxes ∧ getSyntaxType (some "html") = SyntaxType.markup :=
  ⟨by decide, getSyntaxType_classification.1 "scss" (by decide), by decide,
    getSyntaxType_classification.2.1 "html" (by decide)⟩

/-- C4: `isHTML` agrees with membership in `htmlSyntaxes` or `isXML`; in
particular it is true on every member of `xmlSyntaxes`, and false on an
absent or empty syntax name. -/
theorem isHTML_eq_html_or_xml :
    (∀ s : String, isHTML (some s) = (decide (s ∈ htmlSyntaxes) || isXML (some s))) ∧
    isHTML none = false ∧
    isHTML (some "") = false ∧
    (∀ s, s ∈ xmlSyntaxes → isHTML (some s) = true) := by
  refine ⟨?_, rfl, by decide, ?_⟩
  · intro s
    by_cases h : s = ""
    · subst h
      decide
    · simp [isHTML, h]
  · intro s hs
    have hne : s ≠ "" := by
      rintro rfl
      revert hs
      decide
    have hx : isXML (some s) = true := by
      simp [isXML, hne, hs]
    simp [isHTML, hne, hx]

/-- C4 witness: a concrete XML dialect. -/
theorem isHTML_eq_html_or_xml_witness :
    "xsl" ∈ xmlSyntaxes ∧ isHTML (some "xsl") = true :=
  ⟨by decide, isHTML_eq_html_or_xml.2.2.2 "xsl" (by decide)⟩

/-- C8: `markupSyntaxes` and `stylesheetSyntaxes` are disjoint, so each
syntax name has at most one classification and `getSyntaxType` is
unambiguous. -/
theorem markup_stylesheet_disjoint :
    ∀ s, s ∈ markupSyntaxes → s ∉ stylesheetSyntaxes := by
  decide

/-- C8 witness: a concrete markup syntax that is not a stylesheet
syntax. -/
theorem markup_stylesheet_disjoint_witness :
    "html" ∈ markupSyntaxes ∧ "html" ∉ stylesheetSyntaxes :=
  ⟨by decide, markup_stylesheet_disjoint "html" (by decide)⟩

/-- C9: each lookup predicate (isXML, isHTML, isCSS, isJSX, isSupported)
returns false on an absent and on an empty syntax name; being total Lean
functions, none can raise an error. -/
theorem lookups_absent_empty_false :
    isXML none = false ∧ isXML (some "") = false ∧
    isHTML none = false ∧ isHTML (some "") = false ∧
    isCSS none = false ∧ isCSS (some "") = false ∧
    isJSX none = false ∧ isJSX (some "") = false ∧
    isSupported none = false ∧ isSupported (some "") = false := by
  decide

/-- C10: an option value that is neither the boolean true nor an array —
in the `EnableForSyntax` type, the boolean false — disables the feature
for every `SyntaxInfo`. -/
theorem enabledForSyntax_false_disabled (info : SyntaxInfo) :
    enabledForSyntax (.bool false) info = false := rfl

/-- C5: the boolean true option always enables; an array option enables
exactly when one of the candidate tags — the abbreviation type, the syntax
name, and, only when the info is inline, the same two suffixed with
`-inline` — is a member of the array. -/
theorem enabledForSyntax_candidates (tags : List String) (info : SyntaxInfo) :
    enabledForSyntax (.bool true) info = true ∧
    enabledForSyntax (.list tags) info =
      (decide (info.type.str ∈ tags) || decide (info.syntaxName ∈ tags) ||
        (truthyOpt info.inline &&
          (decide (info.type.str ++ "-inline" ∈ tags) ||
           decide (info.syntaxName ++ "-inline" ∈ tags)))) := by
  refine ⟨rfl, ?_⟩
  cases h : truthyOpt info.inline <;>
    simp [ enabledForSyntax, h, Bool.or_assoc]

/-- C1: the context override rule of `syntaxInfo`: an HTML context with a
nested css sub-context yields inline css (stylesheet type, the nested CSS
context); a plain CSS context forces syntax css with inline unset; in all
other cases the syntax stays ` docSyntax state`. -/
theorem syntaxInfo_contextOverride (state : EditorState) (ctx : Option (Nat ⊕ Context)) :
    (∀ h c, resolvedContext state ctx = some (Context.html h) → h.css = some c →
      syntaxInfo state ctx =
        { type := SyntaxType.stylesheet, syntaxName := "css",
          inline := some true, context := some (Context.css c) }) ∧
    (∀ c, resolvedContext state ctx = some (Context.css c) →
      ( syntaxInfo state ctx).syntaxName = "css" ∧
      ( syntaxInfo state ctx).inline = none) ∧
    ((∀ h, resolvedContext state ctx = some (Context.html h) → h.css = none) →
      (∀ c, resolvedContext state ctx ≠ some (Context.css c)) →
      ( syntaxInfo state ctx).syntaxName = docSyntax state) := by
  refine ⟨?_, ?_, ?_⟩
  · intro h c hres hcss
    simp [syntaxInfo, hres, hcss, getSyntaxType_css]
  · intro c hres
    constructor <;> simp [syntaxInfo, hres]
  · intro hhtml hcssne
    rcases hres : resolvedContext state ctx with - | c0
    · simp [syntaxInfo, hres]
    · cases c0 with
      | html h =>
        have hnone := hhtml h hres
        simp [syntaxInfo, hres, hnone]
      | css c => exact absurd hres (hcssne c)

/-- C1 witness: a concrete HTML context carrying a css sub-context. -/
theorem syntaxInfo_contextOverride_witness :
    syntaxInfo sampleState
      (some (Sum.inr (Context.html { ancestors := [], css := some sampleCSSContext }))) =
      { type := SyntaxType.stylesheet, syntaxName := "css",
        inline := some true, context := some (Context.css sampleCSSContext) } :=
  (syntaxInfo_contextOverride sampleState
    (some (Sum.inr (Context.html { ancestors := [], css := some sampleCSSContext })))).1
    { ancestors := [], css := some sampleCSSContext } sampleCSSContext rfl rfl

/-- C2: inline CSS contexts always get the `@@property` scope; otherwise a
current PropertyValue token with an innermost ancestor gets the ancestor's
name, a top-level Selector or PropertyName token with no ancestor gets
`@@section`, and every other combination keeps `@@global`. -/
theorem getStylesheetAbbreviationContext_scope (ctx : CSSContext) :
    (ctx.inline = some true →
      getStylesheetAbbreviationContext ctx =
        { name := "@@property", attributes := none }) ∧
    (ctx.inline ≠ some true →
      (∀ cur p, ctx.current = some cur → cur.type = TokenType.PropertyValue →
        last ctx.ancestors = some p →
        getStylesheetAbbreviationContext ctx = { name := p.name, attributes := none }) ∧
      (∀ cur, ctx.current = some cur →
        (cur.type = TokenType.Selector ∨ cur.type = TokenType.PropertyName) →
        last ctx.ancestors = none →
        getStylesheetAbbreviationContext ctx =
          { name := "@@section", attributes := none }) ∧
      ((∀ cur, ctx.current = some cur →
          ¬(cur.type = TokenType.PropertyValue ∧ (last ctx.ancestors).isSome = true) ∧
          ¬((cur.type = TokenType.Selector ∨ cur.type = TokenType.PropertyName) ∧
            last ctx.ancestors = none)) →
        getStylesheetAbbreviationContext ctx =
          { name := "@@global", attributes := none })) := by
  constructor
  · intro h
    simp [getStylesheetAbbreviationContext, h, truthyOpt, CSSAbbreviationScope.Property]
  · intro h
    have hf : truthyOpt ctx.inline = false := by
      rcases hi : ctx.inline with - | b
      · rfl
      · cases b
        · rfl
        · exact absurd hi h
    refine ⟨?_, ?_, ?_⟩
    · intro cur p hcur hty hp
      simp [getStylesheetAbbreviationContext, hf, hcur, hp, hty]
    · intro cur hcur hty hlast
      simp [getStylesheetAbbreviationContext, hf, hcur, hlast, hty,
        CSSAbbreviationScope.Section]
    · intro hother
      rcases hcur : ctx.current with - | cur
      · simp [getStylesheetAbbreviationContext, hf, hcur, CSSAbbreviationScope.Global]
      · have hboth := hother cur hcur
        rcases hlast : last ctx.ancestors with - | p
        · have hnot : ¬(cur.type = TokenType.Selector ∨ cur.type = TokenType.PropertyName) :=
            fun hsp => hboth.2 ⟨hsp, hlast⟩
          simp [getStylesheetAbbreviationContext, hf, hcur, hlast, hnot,
            CSSAbbreviationScope.Global]
        · have hnotpv : ¬(cur.type = TokenType.PropertyValue) :=
            fun hpv => hboth.1 ⟨hpv, by simp [hlast]⟩
          simp [getStylesheetAbbreviationContext, hf, hcur, hlast, hnotpv,
            CSSAbbreviationScope.Global]

/-- C2 witness: a concrete inline CSS context with ancestors and a current
token still gets the `@@property` scope. -/
theorem getStylesheetAbbreviationContext_scope_witness :
    getStylesheetAbbreviationContext
      { ancestors := [{ name := "color", range := (10, 20) }],
        inline := some true,
        current := some { type := TokenType.Selector, range := (12, 15) } } =
      { name := "@@property", attributes := none } :=
  (getStylesheetAbbreviationContext_scope
    { ancestors := [{ name := "color", range := (10, 20) }],
      inline := some true,
      current := some { type := TokenType.Selector, range := (12, 15) } }).1 rfl

/-- C6: ` getEmbeddedStyleSyntax` returns nothing when there is no
innermost ancestor, or the innermost ancestor is not named style, or the
style tag's attributes carry no type attribute; when the innermost
ancestor is a style tag it returns the value of the first type attribute
parsed from the raw slice of the ancestor's range.  As a total Lean
function it cannot raise an error. -/
theorem getEmbeddedStyleSyntax_typeAttr
    (attributes : String → String → List AttributeToken)
    (code : String) (ctx : HTMLContext) :
    ( last ctx.ancestors = none →
      getEmbeddedStyleSyntax attributes code ctx = none) ∧
    (∀ p, last ctx.ancestors = some p → p.name ≠ "style" →
      getEmbeddedStyleSyntax attributes code ctx = none) ∧
    (∀ p, last ctx.ancestors = some p → p.name = "style" →
      getEmbeddedStyleSyntax attributes code ctx =
        findTypeAttrValue (attributes ( strSlice code p.range.1 p.range.2) p.name)) ∧
    (∀ p, last ctx.ancestors = some p → p.name = "style" →
      (∀ attr, attr ∈ attributes ( strSlice code p.range.1 p.range.2) p.name →
        attr.name ≠ "type") →
      getEmbeddedStyleSyntax attributes code ctx = none) := by
  refine ⟨?_, ?_, ?_, ?_⟩
  · intro hnone
    simp [ getEmbeddedStyleSyntax, hnone]
  · intro p hp hname
    simp [ getEmbeddedStyleSyntax, hp, hname]
  · intro p hp hname
    simp [ getEmbeddedStyleSyntax, hp, hname]
  · intro p hp hname hno
    rw [hname] at hno
    simp [ getEmbeddedStyleSyntax, hp, hname]
    exact findTypeAttrValue_eq_none _ hno

/-- C6 witness: a concrete style ancestor with a type attribute. -/
theorem getEmbeddedStyleSyntax_typeAttr_witness :
    getEmbeddedStyleSyntax
      (fun _ _ => [{ name := "type", value := some "text/scss" }])
      "<style type=text/scss></style>"
      { ancestors := [{ name := "style", range := (0, 22) }], css := none } =
      some "text/scss" := by
  have h := (getEmbeddedStyleSyntax_typeAttr
      (fun _ _ => [{ name := "type", value := some "text/scss" }])
      "<style type=text/scss></style>"
      { ancestors := [{ name := "style", range := (0, 22) }], css := none }).2.2.1
      { name := "style", range := (0, 22) } rfl rfl
  rw [h]
  rfl

/-- C7: `getMarkupAbbreviationContext` returns nothing when the HTML
context has no ancestors; otherwise it returns the innermost ancestor's
name together with the attributes of the nearest enclosing OpenTag node
reached by walking parent links upward from the node resolved at the
ancestor's start position, or an empty mapping when no OpenTag node is
found before the tree root. -/
theorem getMarkupAbbreviationContext_scope (state : EditorState) (ctx : HTMLContext) :
    (ctx.ancestors = [] → getMarkupAbbreviationContext state ctx = none) ∧
    (∀ p n, last ctx.ancestors = some p →
      findOpenTagNode (state.resolveAt p.range.1) = some n →
      getMarkupAbbreviationContext state ctx =
        some { name := p.name, attributes := some ( getTagAttributes state n) }) ∧
    (∀ p, last ctx.ancestors = some p →
      findOpenTagNode (state.resolveAt p.range.1) = none →
      getMarkupAbbreviationContext state ctx =
        some { name := p.name, attributes := some [] }) := by
  refine ⟨?_, ?_, ?_⟩
  · intro hnil
    simp [getMarkupAbbreviationContext, last, hnil]
  · intro p n hp hfind
    simp [getMarkupAbbreviationContext, hp, hfind]
  · intro p hp hfind
    simp [getMarkupAbbreviationContext, hp, hfind]

/-- C7 witness: a concrete ancestor whose start position resolves to a
text node below an OpenTag node carrying one attribute. -/
theorem getMarkupAbbreviationContext_scope_witness :
    getMarkupAbbreviationContext sampleState
      { ancestors := [{ name := "div", range := (4, 30) }], css := none } =
      some { name := "div", attributes := some [("id", "page")] } :=
  (getMarkupAbbreviationContext_scope sampleState
    { ancestors := [{ name := "div", range := (4, 30) }], css := none }).2.1
    { name := "div", range := (4, 30) } sampleOpenTag rfl rfl
